import Mathlib

/-!
Shallow embedding of the gnext build pipeline.

The definitions below translate the pipeline's code — `src/utils/shell.ts`,
`src/utils/project.ts`, `src/utils/gnome.ts` and `src/commands/build.ts` —
into Lean. External processes are modelled by oracles: a `SpawnOutcome`
says what the operating system did when a tool was invoked (the process ran
and exited with some code, or could not be spawned at all), and the
filesystem is modelled explicitly (as a list of existing paths, or as a
small node tree, at the granularity each function needs). Thrown JavaScript
errors become `Except` / `Option` values.
-/

/-! ## ShellExecutor (src/utils/shell.ts) -/

/-- The record `exec`/`execCommand` resolve to: `{stdout, stderr, exitCode}`. -/
structure ExecResult where
  stdout : String
  stderr : String
  exitCode : Nat
deriving Repr, DecidableEq

/-- What the operating system did for one tool invocation: the process ran
to completion with an exit code and captured output, or it could not be
spawned (missing executable, spawn error) and the runner threw. -/
inductive SpawnOutcome where
  | completed (exitCode : Nat) (stdout stderr : String)
  | spawnError (message : String)
deriving Repr, DecidableEq

/-- The raw `execa(command, args, {reject: false})` call as `shell.exec`
sees it, at the coarse granularity the gating claims need: an invocation
either yields an exit code or fails to yield one, the latter routed
through the code's catch path. Under execa v6–v8 a spawn failure in fact
resolves with an undefined exit code instead of throwing — see
`execaCallRaw` and `ShellExecutor.execResolved` below for the
record-faithful embedding; for `execOrThrow`'s zero-versus-non-zero test
(`undefined !== 0` is true) both embeddings take the same branch. -/
def execaRaw : SpawnOutcome → Except String ExecResult
  | .completed c out err => .ok ⟨out, err, c⟩
  | .spawnError m => .error m

/-- The raw `execaCommand(command, {reject: false, shell: true})` call as
`shell.execCommand` sees it, at the same coarse granularity as
`execaRaw` (see the caveat there; `execaCommandCallRaw` below is the
record-faithful embedding). -/
def execaCommandRaw : SpawnOutcome → Except String ExecResult
  | .completed c out err => .ok ⟨out, err, c⟩
  | .spawnError m => .error m

namespace ShellExecutor

/-- `ShellExecutor.exec` (shell.ts lines 7–30): forwards the resolved
result, and catches a thrown error into
`{stdout: "", stderr: message, exitCode: 1}`. -/
def exec (o : SpawnOutcome) : ExecResult :=
  match execaRaw o with
  | .ok result => ⟨result.stdout, result.stderr, result.exitCode⟩
  | .error message => ⟨"", message, 1⟩

/-- `ShellExecutor.execCommand` (shell.ts lines 35–58): same shape as
`exec`, over the command-string variant of the runner. -/
def execCommand (o : SpawnOutcome) : ExecResult :=
  match execaCommandRaw o with
  | .ok result => ⟨result.stdout, result.stderr, result.exitCode⟩
  | .error message => ⟨"", message, 1⟩

/-- The error message `execOrThrow` builds:
`Command failed: ${command} ${args.join(" ")}\n${result.stderr}`. -/
def failMessage (command : String) (args : List String) (stderr : String) : String :=
  "Command failed: " ++ command ++ " " ++ String.intercalate " " args ++ "\n" ++ stderr

/-- `ShellExecutor.execOrThrow` (shell.ts lines 71–83): runs `exec`, throws
the built message when the exit code is non-zero, else returns stdout. -/
def execOrThrow (command : String) (args : List String) (o : SpawnOutcome) :
    Except String String :=
  let result := exec o
  if result.exitCode ≠ 0 then
    .error (failMessage command args result.stderr)
  else
    .ok result.stdout

end ShellExecutor

/-! ## The execa resolution contract (execa v6–v8, reject:false)

The record-level contract of `exec`/`execCommand` is finer than the
coarse model above: with `reject: false`, execa does not reject when the
process cannot be spawned — the promise resolves with `exitCode`
undefined and empty captured output, so the code's catch path is never
taken for a missing executable. The definitions below embed that
resolution contract. -/

/-- The record `exec` actually returns: `exitCode` is `undefined`
(`none`) when the process did not run to completion. -/
structure ResolvedExecResult where
  stdout : String
  stderr : String
  exitCode : Option Nat
deriving Repr, DecidableEq

/-- One execa invocation as the caller observes it under `reject: false`:
the promise resolves with a result — for a completed process `exitCode`
is its exit code; for one that could not be spawned `exitCode` is
undefined and the captured output empty — or the runner itself threw
(invalid usage; not a spawn failure). -/
inductive ExecaEvent where
  | resolved (exitCode : Option Nat) (stdout stderr : String)
  | threw (message : String)
deriving Repr, DecidableEq

/-- What execa resolves to for an executable that cannot be spawned
(missing tool, spawn error): exit code undefined, empty stdout and
stderr. -/
def spawnFailureEvent : ExecaEvent := ExecaEvent.resolved none "" ""

/-- The raw `execa(command, args, {reject: false})` call at the record
level. -/
def execaCallRaw : ExecaEvent → Except String ResolvedExecResult
  | .resolved c out err => .ok ⟨out, err, c⟩
  | .threw m => .error m

/-- The raw `execaCommand(command, {reject: false, shell: true})` call at
the record level. -/
def execaCommandCallRaw : ExecaEvent → Except String ResolvedExecResult
  | .resolved c out err => .ok ⟨out, err, c⟩
  | .threw m => .error m

namespace ShellExecutor

/-- `ShellExecutor.exec` (shell.ts lines 7–30) at the record level: the
try body forwards the resolved fields unchanged; the catch block maps a
thrown error to `{stdout: "", stderr: message, exitCode: 1}` — a path a
spawn failure never takes. -/
def execResolved (e : ExecaEvent) : ResolvedExecResult :=
  match execaCallRaw e with
  | .ok result => ⟨result.stdout, result.stderr, result.exitCode⟩
  | .error message => ⟨"", message, some 1⟩

/-- `ShellExecutor.execCommand` (shell.ts lines 35–58) at the record
level. -/
def execCommandResolved (e : ExecaEvent) : ResolvedExecResult :=
  match execaCommandCallRaw e with
  | .ok result => ⟨result.stdout, result.stderr, result.exitCode⟩
  | .error message => ⟨"", message, some 1⟩

end ShellExecutor

/-! ## runTscWithFallback (src/commands/build.ts lines 314–328)

`try { execOrThrow("bunx", ["tsc"]) } catch {}` then the same with
`npx`, then a terminal error. The returned list records which executables
were invoked, in order. -/

def runTscWithFallback (bunxOutcome npxOutcome : SpawnOutcome) :
    List String × Except String Unit :=
  match ShellExecutor.execOrThrow "bunx" ["tsc"] bunxOutcome with
  | .ok _ => (["bunx"], .ok ())
  | .error _ =>
    match ShellExecutor.execOrThrow "npx" ["tsc"] npxOutcome with
    | .ok _ => (["bunx", "npx"], .ok ())
    | .error _ =>
      (["bunx", "npx"], .error "Failed to run TypeScript compiler - tried bunx and npx")

/-- JavaScript's `s.endsWith(suffix)`, on the string's character list so
that concrete instances evaluate in the kernel. -/
def endsWithStr (s suffix : String) : Bool := suffix.data.isSuffixOf s.data

/-! ## Packaging filesystem model (src/commands/build.ts, createZipPackage)

For `createZipPackage` only the existence of files matters, so the
filesystem is the list of existing file paths (relative to the project
root). `fs.copy` creates/overwrites the destination, `fs.remove` deletes
every entry at the path. -/

/-- The set of existing paths. -/
abbrev PathFS := List String

/-- `project.fileExists` over the path-list filesystem. -/
def fsHas (fs : PathFS) (p : String) : Bool := decide (p ∈ fs)

/-- `fs.copy _ p` / `fs.ensureDir`-then-write: afterwards `p` exists. -/
def fsAdd (fs : PathFS) (p : String) : PathFS := if fsHas fs p then fs else p :: fs

/-- `fs.remove p`: afterwards `p` does not exist. -/
def fsRemove (fs : PathFS) (p : String) : PathFS := fs.filter (fun q => decide (q ≠ p))

/-- The archive's file name, `${uuid}.shell-extension-v${version}.zip`. -/
def zipFileName (uuid version : String) : String :=
  uuid ++ ".shell-extension-v" ++ version ++ ".zip"

/-- The archive's path under the `build` directory. -/
def zipPath (uuid version : String) : String := "build/" ++ zipFileName uuid version

/-- Where the resource blob is copied inside the compiled-output tree. -/
def gresourceCopyPath (jsDir uuid : String) : String := jsDir ++ "/" ++ uuid ++ ".gresource"

/-- Where `metadata.json` is copied inside the compiled-output tree. -/
def metadataCopyPath (jsDir : String) : String := jsDir ++ "/metadata.json"

/-- Where `LICENSE` is copied inside the compiled-output tree. -/
def licenseCopyPath (jsDir : String) : String := jsDir ++ "/LICENSE"

/-- What one `createZipPackage` call did: the final filesystem, whether the
call returned normally (`ok = false` means it threw), and a snapshot of the
filesystem at the moment the `zip` tool was invoked. -/
structure ZipRun where
  fs : PathFS
  ok : Bool
  fsAtZipInvocation : PathFS
deriving Repr

/-- The copy block of `createZipPackage` (build.ts lines 275–289): copy the
resource blob into the compiled-output tree when one was produced, copy
`metadata.json`, and copy `LICENSE` when it exists at the project root. -/
def injectCopies (jsDir uuid : String) (resourceTarget : Option String) (fs : PathFS) : PathFS :=
  let fs2 := match resourceTarget with
    | some _ => fsAdd fs (gresourceCopyPath jsDir uuid)
    | none => fs
  let fs3 := fsAdd fs2 (metadataCopyPath jsDir)
  if fsHas fs3 "LICENSE" then fsAdd fs3 (licenseCopyPath jsDir) else fs3

/-- The cleanup block of `createZipPackage` (build.ts lines 297–306):
remove the resource copy when one was made, remove the metadata copy, and
remove the license copy when it exists. -/
def cleanupCopies (jsDir uuid : String) (resourceTarget : Option String) (fs : PathFS) : PathFS :=
  let fs6 := match resourceTarget with
    | some _ => fsRemove fs (gresourceCopyPath jsDir uuid)
    | none => fs
  let fs7 := fsRemove fs6 (metadataCopyPath jsDir)
  if fsHas fs7 (licenseCopyPath jsDir) then fsRemove fs7 (licenseCopyPath jsDir) else fs7

/-- `createZipPackage` (build.ts lines 252–309), step by step: ensure the
build directory; remove an existing archive; copy the resource blob (when
one was produced), `metadata.json`, and `LICENSE` (when present) into the
compiled-output tree; invoke the `zip` tool rooted there; then remove the
three copies. `zipToolSucceeds` is the oracle for the `zip` invocation; on
success the tool writes the archive, on failure it writes nothing and
`execOrThrow` throws, so the function returns early with `ok = false`.
The metadata source file and, when `resourceTarget` is set, the resource
blob are assumed present (the orchestrator created both before this call). -/
def createZipPackage (jsDir uuid version : String) (resourceTarget : Option String)
    (zipToolSucceeds : Bool) (fs : PathFS) : ZipRun :=
  let zp := zipPath uuid version
  let fs1 := if fsHas fs zp then fsRemove fs zp else fs
  let fs4 := injectCopies jsDir uuid resourceTarget fs1
  if zipToolSucceeds then
    ⟨cleanupCopies jsDir uuid resourceTarget (fsAdd fs4 zp), true, fs4⟩
  else
    ⟨fs4, false, fs4⟩

/-! ## The install/enable/reload tail (src/commands/build.ts lines 65–82)

`gnome.installExtension` and `gnome.enableExtension` (src/utils/gnome.ts)
return a Boolean and never throw; `installSucceeds` and `enableSucceeds`
are those results. The code binds `installed` to the install result, calls
`enableExtension` without binding its result, and then branches on
`options.unsafeReload` alone. -/

/-- Which steps of the tail ran: whether `gnome.installExtension`,
`gnome.enableExtension` and `gnome.restartGnomeShell` were called, and
whether the "Log out and log back in to apply changes." message was
printed. -/
structure InstallTailTrace where
  installAttempted : Bool
  enableAttempted : Bool
  reloadAttempted : Bool
  manualReloadMessage : Bool
deriving Repr, DecidableEq

/-- The tail of `buildCommand` after a successful packaging step, as a
function of the two options and the two tool results. `enableSucceeds` is
deliberately never consulted: the code discards `enableExtension`'s return
value. -/
def installTail (installOpt unsafeReloadOpt installSucceeds enableSucceeds : Bool) :
    InstallTailTrace :=
  if installOpt then
    if installSucceeds then
      let _ := enableSucceeds
      if unsafeReloadOpt then ⟨true, true, true, false⟩
      else ⟨true, true, false, true⟩
    else ⟨true, false, false, false⟩
  else ⟨false, false, false, false⟩

/-! ## Node-tree filesystem and ProjectUtils (src/utils/project.ts)

The feature probes distinguish "path absent", "path is a plain file" and
"path is a directory with these entries", so here the filesystem is a map
from paths to nodes. `readdir` of a non-directory is the thrown error,
modelled as `none`; a probe that would throw returns `none`. -/

/-- One filesystem node: a plain file, or a directory with the names of its
entries (what `fs.readdir` returns, non-recursively). -/
inductive FsNode where
  | file
  | dir (entries : List String)
deriving Repr, DecidableEq

/-- The probed filesystem: an association of paths (relative to the project
root) to nodes. -/
structure NodeFS where
  nodes : List (String × FsNode)
deriving Repr

/-- The node at a path, if any. -/
def lookupNode (fs : NodeFS) (p : String) : Option FsNode :=
  (fs.nodes.find? (fun e => e.1 == p)).map (fun e => e.2)

/-- `project.fileExists` (project.ts lines 16–23): `fs.access` succeeds on
files and directories alike. -/
def fileExists (fs : NodeFS) (p : String) : Bool := (lookupNode fs p).isSome

/-- `fs.readdir`: the entries of a directory; `none` models the error
thrown when the path is not a directory. -/
def readdir (fs : NodeFS) (p : String) : Option (List String) :=
  match lookupNode fs p with
  | some (.dir entries) => some entries
  | _ => none

namespace ProjectUtils

/-- `project.usesTypeScript` (project.ts lines 88–91): does
`tsconfig.json` exist at the project root. -/
def usesTypeScript (fs : NodeFS) : Bool := fileExists fs "tsconfig.json"

/-- `project.getJsDir` (project.ts lines 96–99): `dist` for TypeScript
projects, `src` otherwise. `buildCommand` line 32 computes the same value. -/
def getJsDir (fs : NodeFS) : String := if usesTypeScript fs then "dist" else "src"

/-- `project.hasTranslations` (project.ts lines 104–112): false when `po`
does not exist, else whether some entry of `po` ends in `.po`. `none`
models the throw when `po` exists but is not a directory. -/
def hasTranslations (fs : NodeFS) : Option Bool :=
  if !fileExists fs "po" then some false
  else (readdir fs "po").map (fun files => files.any (fun f => endsWithStr f ".po"))

/-- `project.hasResources` (project.ts lines 117–125): false when `data`
does not exist, else whether `data` has at least one entry. -/
def hasResources (fs : NodeFS) : Option Bool :=
  if !fileExists fs "data" then some false
  else (readdir fs "data").map (fun files => decide (files.length > 0))

/-- `project.hasSchemas` (project.ts lines 130–140): probes the `schemas`
subdirectory of the resolved output directory (`dist/schemas` for
TypeScript projects, `src/schemas` otherwise); false when it does not
exist, else whether it has at least one entry. -/
def hasSchemas (fs : NodeFS) : Option Bool :=
  let jsDir := getJsDir fs
  let schemasDir := jsDir ++ "/schemas"
  if !fileExists fs schemasDir then some false
  else (readdir fs schemasDir).map (fun files => decide (files.length > 0))

end ProjectUtils

/-- The pipeline's stages. -/
inductive Stage where
  | compile
  | translate
  | resources
  | schemas
  | package
deriving Repr, DecidableEq

/-- Which stages `buildCommand` (build.ts lines 24–59) runs, in order. All
four feature flags are computed from the initial filesystem, before any
stage mutates it (the probes at lines 24–30 precede the compile stage's
deletion of `dist` at lines 98–101). A probe whose `readdir` throws aborts
the build before any stage, so for such a filesystem this list
over-approximates what runs; every claim below uses it only negatively
(a stage not in the list never runs). -/
def buildStages (fs : NodeFS) : List Stage :=
  (if ProjectUtils.usesTypeScript fs then [Stage.compile] else [])
  ++ (if ProjectUtils.hasTranslations fs = some true then [Stage.translate] else [])
  ++ (if ProjectUtils.hasResources fs = some true then [Stage.resources] else [])
  ++ (if ProjectUtils.hasSchemas fs = some true then [Stage.schemas] else [])
  ++ [Stage.package]

/-! ## compileTranslations (src/commands/build.ts lines 148–178)

The stage returns early (a warning, no error) when `msgfmt` is not
installed; otherwise it iterates over the entries of `po`, skips those not
ending in `.po`, and runs `execOrThrow` on each — the first non-zero
`msgfmt` exit throws, ending the loop. `msgfmtOk` is the oracle for one
`msgfmt -c <file> -o <target>` invocation. The result is the list of files
compiled, in order, and `some f` when compiling `f` threw. -/

def compileTranslationsGo (msgfmtOk : String → Bool) : List String → List String × Option String
  | [] => ([], none)
  | f :: rest =>
    if !endsWithStr f ".po" then compileTranslationsGo msgfmtOk rest
    else if msgfmtOk f then
      let r := compileTranslationsGo msgfmtOk rest
      (f :: r.1, r.2)
    else ([], some f)

/-- The whole stage: `msgfmtAvailable` is `shell.commandExists "msgfmt"`,
`poFiles` the entries of the `po` directory. -/
def compileTranslations (msgfmtAvailable : Bool) (msgfmtOk : String → Bool)
    (poFiles : List String) : List String × Option String :=
  if !msgfmtAvailable then ([], none)
  else compileTranslationsGo msgfmtOk poFiles

/-! ## compileTypeScript output model (src/commands/build.ts lines 90–146)

For the compile stage the content of files matters, so here the filesystem
is a list of `(path, content)` pairs with paths as component lists
(`["src", "extension.ts"]`). The external compiler is an oracle mapping
the source tree to the tree of files it emits (relative to `dist`); the
claim about this stage assumes it deterministic, which a function is. -/

/-- A path, as its components. -/
abbrev CPath := List String

/-- A filesystem with contents: each existing file's path and bytes. -/
abbrev TreeFS := List (CPath × String)

/-- Is the path inside the directory `d` at the root. -/
def underDir (d : String) (p : CPath) : Bool :=
  match p with
  | c :: _ => c == d
  | [] => false

/-- Strip the leading directory `d` from an entry, when it is under `d`. -/
def stripDir (d : String) (e : CPath × String) : Option (CPath × String) :=
  match e with
  | (c :: rest, content) => if c == d then some (rest, content) else none
  | ([], _) => none

/-- The `src` tree, with paths relative to `src`. -/
def srcTree (fs : TreeFS) : TreeFS := fs.filterMap (stripDir "src")

/-- The `dist` tree, with paths relative to `dist`. -/
def distTree (fs : TreeFS) : TreeFS := fs.filterMap (stripDir "dist")

/-- Does the file path end in `.ts` (build.ts line 137 tests the full path;
the suffix lives in the last component). -/
def isTsFile (p : CPath) : Bool := endsWithStr (p.getLastD "") ".ts"

/-- What ends up under `dist`, relative to `dist`: the compiler's emitted
files, then every non-`.ts` file of `src` copied over them (the copy loop
at lines 129–143 runs after the compiler and overwrites on collision). -/
def distOutput (compiler : TreeFS → TreeFS) (src : TreeFS) : TreeFS :=
  let emitted := compiler src
  let assets := src.filter (fun e => !isTsFile e.1)
  assets ++ emitted.filter (fun e => assets.all (fun a => !(a.1 == e.1)))

/-- `compileTypeScript` on the success path: remove any previous `dist`
entirely (lines 98–101), install dependencies when `node_modules` is
absent (lines 104–107; it writes only under `node_modules`), run the
compiler, copy the non-`.ts` sources. -/
def compileTypeScript (compiler : TreeFS → TreeFS) (fs : TreeFS) : TreeFS :=
  let fs1 := fs.filter (fun e => !underDir "dist" e.1)
  let fs2 := if fs1.any (fun e => underDir "node_modules" e.1) then fs1
    else fs1 ++ [(["node_modules"], "")]
  fs2 ++ (distOutput compiler (srcTree fs)).map (fun e => ("dist" :: e.1, e.2))

/-! ## Helper lemmas about the path-list filesystem -/

theorem fsHas_fsRemove_self (fs : PathFS) (p : String) :
    fsHas (fsRemove fs p) p = false := by
  simp [fsHas, fsRemove, List.mem_filter]

theorem fsHas_fsRemove_false (fs : PathFS) (p q : String) (h : fsHas fs q = false) :
    fsHas (fsRemove fs p) q = false := by
  simp only [fsHas, decide_eq_false_iff_not] at h ⊢
  intro hmem
  exact h (List.mem_of_mem_filter hmem)

theorem fsHas_fsRemove_of_ne (fs : PathFS) (p q : String) (h : q ≠ p) :
    fsHas (fsRemove fs p) q = fsHas fs q := by
  simp [fsHas, fsRemove, List.mem_filter, h]

theorem fsHas_fsAdd_self (fs : PathFS) (p : String) :
    fsHas (fsAdd fs p) p = true := by
  by_cases h : fsHas fs p
  · simp [fsAdd, h]
  · simp only [fsAdd, h, if_neg, Bool.false_eq_true, if_false]
    simp [fsHas]

theorem fsHas_fsAdd_true (fs : PathFS) (p q : String) (h : fsHas fs q = true) :
    fsHas (fsAdd fs p) q = true := by
  by_cases hc : fsHas fs p
  · simpa [fsAdd, hc]
  · simp only [fsAdd, hc, Bool.false_eq_true, if_false]
    simp only [fsHas, decide_eq_true_eq] at h ⊢
    exact List.mem_cons_of_mem _ h

theorem fsHas_fsAdd_of_ne (fs : PathFS) (p q : String) (h : q ≠ p) :
    fsHas (fsAdd fs p) q = fsHas fs q := by
  by_cases hc : fsHas fs p
  · simp [fsAdd, hc]
  · simp only [fsHas, decide_eq_true_eq] at hc
    simp [fsAdd, fsHas, hc, h]

/-! ## Helper lemmas about the packaging copy blocks -/

theorem cleanupCopies_no_metadata (jsDir uuid : String) (rt : Option String) (fs : PathFS) :
    fsHas (cleanupCopies jsDir uuid rt fs) (metadataCopyPath jsDir) = false := by
  unfold cleanupCopies
  cases rt with
  | none =>
    by_cases h : fsHas (fsRemove fs (metadataCopyPath jsDir)) (licenseCopyPath jsDir)
    · simp only [h, if_true]
      exact fsHas_fsRemove_false _ _ _ (fsHas_fsRemove_self _ _)
    · simp only [h, Bool.false_eq_true, if_false]
      exact fsHas_fsRemove_self _ _
  | some r =>
    by_cases h : fsHas (fsRemove (fsRemove fs (gresourceCopyPath jsDir uuid)) (metadataCopyPath jsDir)) (licenseCopyPath jsDir)
    · simp only [h, if_true]
      exact fsHas_fsRemove_false _ _ _ (fsHas_fsRemove_self _ _)
    · simp only [h, Bool.false_eq_true, if_false]
      exact fsHas_fsRemove_self _ _

theorem cleanupCopies_no_license (jsDir uuid : String) (rt : Option String) (fs : PathFS) :
    fsHas (cleanupCopies jsDir uuid rt fs) (licenseCopyPath jsDir) = false := by
  unfold cleanupCopies
  cases rt with
  | none =>
    by_cases h : fsHas (fsRemove fs (metadataCopyPath jsDir)) (licenseCopyPath jsDir)
    · simp only [h, if_true]
      exact fsHas_fsRemove_self _ _
    · simp only [h, Bool.false_eq_true, if_false]
  | some r =>
    by_cases h : fsHas (fsRemove (fsRemove fs (gresourceCopyPath jsDir uuid)) (metadataCopyPath jsDir)) (licenseCopyPath jsDir)
    · simp only [h, if_true]
      exact fsHas_fsRemove_self _ _
    · simp only [h, Bool.false_eq_true, if_false]

theorem cleanupCopies_no_gresource (jsDir uuid : String) (r : String) (fs : PathFS) :
    fsHas (cleanupCopies jsDir uuid (some r) fs) (gresourceCopyPath jsDir uuid) = false := by
  unfold cleanupCopies
  by_cases h : fsHas (fsRemove (fsRemove fs (gresourceCopyPath jsDir uuid)) (metadataCopyPath jsDir)) (licenseCopyPath jsDir)
  · simp only [h, if_true]
    exact fsHas_fsRemove_false _ _ _ (fsHas_fsRemove_false _ _ _ (fsHas_fsRemove_self _ _))
  · simp only [h, Bool.false_eq_true, if_false]
    exact fsHas_fsRemove_false _ _ _ (fsHas_fsRemove_self _ _)

theorem injectCopies_has_metadata (jsDir uuid : String) (rt : Option String) (fs : PathFS) :
    fsHas (injectCopies jsDir uuid rt fs) (metadataCopyPath jsDir) = true := by
  unfold injectCopies
  cases rt with
  | none =>
    by_cases h : fsHas (fsAdd fs (metadataCopyPath jsDir)) "LICENSE"
    · simp only [h, if_true]
      exact fsHas_fsAdd_true _ _ _ (fsHas_fsAdd_self _ _)
    · simp only [h, Bool.false_eq_true, if_false]
      exact fsHas_fsAdd_self _ _
  | some r =>
    by_cases h : fsHas (fsAdd (fsAdd fs (gresourceCopyPath jsDir uuid)) (metadataCopyPath jsDir)) "LICENSE"
    · simp only [h, if_true]
      exact fsHas_fsAdd_true _ _ _ (fsHas_fsAdd_self _ _)
    · simp only [h, Bool.false_eq_true, if_false]
      exact fsHas_fsAdd_self _ _

theorem injectCopies_has_gresource (jsDir uuid : String) (r : String) (fs : PathFS) :
    fsHas (injectCopies jsDir uuid (some r) fs) (gresourceCopyPath jsDir uuid) = true := by
  unfold injectCopies
  by_cases h : fsHas (fsAdd (fsAdd fs (gresourceCopyPath jsDir uuid)) (metadataCopyPath jsDir)) "LICENSE"
  · simp only [h, if_true]
    exact fsHas_fsAdd_true _ _ _ (fsHas_fsAdd_true _ _ _ (fsHas_fsAdd_self _ _))
  · simp only [h, Bool.false_eq_true, if_false]
    exact fsHas_fsAdd_true _ _ _ (fsHas_fsAdd_self _ _)

theorem LICENSE_ne_zipPath (uuid version : String) :
    ("LICENSE" : String) ≠ zipPath uuid version := by
  intro h
  have hd : ("LICENSE" : String).data
      = ("build/" : String).data ++ (zipFileName uuid version).data := by
    rw [h, zipPath, String.data_append]
  have h1 : ("LICENSE" : String).data = 'L' :: ['I', 'C', 'E', 'N', 'S', 'E'] := by decide
  have h2 : ("build/" : String).data = 'b' :: ['u', 'i', 'l', 'd', '/'] := by decide
  rw [h1, h2] at hd
  simp at hd

theorem injectCopies_has_license (jsDir uuid : String) (rt : Option String) (fs : PathFS)
    (h : fsHas fs "LICENSE" = true) :
    fsHas (injectCopies jsDir uuid rt fs) (licenseCopyPath jsDir) = true := by
  unfold injectCopies
  cases rt with
  | none =>
    have h3 : fsHas (fsAdd fs (metadataCopyPath jsDir)) "LICENSE" = true :=
      fsHas_fsAdd_true _ _ _ h
    simp only [h3, if_true]
    exact fsHas_fsAdd_self _ _
  | some r =>
    have h3 : fsHas (fsAdd (fsAdd fs (gresourceCopyPath jsDir uuid)) (metadataCopyPath jsDir))
        "LICENSE" = true :=
      fsHas_fsAdd_true _ _ _ (fsHas_fsAdd_true _ _ _ h)
    simp only [h3, if_true]
    exact fsHas_fsAdd_self _ _

theorem injectCopies_preserves_absent (jsDir uuid : String) (rt : Option String)
    (fs : PathFS) (p : String)
    (hm : metadataCopyPath jsDir ≠ p) (hl : licenseCopyPath jsDir ≠ p)
    (hg : gresourceCopyPath jsDir uuid ≠ p) (h : fsHas fs p = false) :
    fsHas (injectCopies jsDir uuid rt fs) p = false := by
  unfold injectCopies
  cases rt with
  | none =>
    by_cases hc : fsHas (fsAdd fs (metadataCopyPath jsDir)) "LICENSE"
    · simp only [hc, if_true]
      rw [fsHas_fsAdd_of_ne _ _ _ (Ne.symm hl), fsHas_fsAdd_of_ne _ _ _ (Ne.symm hm)]
      exact h
    · simp only [hc, Bool.false_eq_true, if_false]
      rw [fsHas_fsAdd_of_ne _ _ _ (Ne.symm hm)]
      exact h
  | some r =>
    by_cases hc : fsHas (fsAdd (fsAdd fs (gresourceCopyPath jsDir uuid)) (metadataCopyPath jsDir)) "LICENSE"
    · simp only [hc, if_true]
      rw [fsHas_fsAdd_of_ne _ _ _ (Ne.symm hl), fsHas_fsAdd_of_ne _ _ _ (Ne.symm hm),
        fsHas_fsAdd_of_ne _ _ _ (Ne.symm hg)]
      exact h
    · simp only [hc, Bool.false_eq_true, if_false]
      rw [fsHas_fsAdd_of_ne _ _ _ (Ne.symm hm), fsHas_fsAdd_of_ne _ _ _ (Ne.symm hg)]
      exact h

/-! ## Claim theorems -/

/-- C2 counterexample: the claim says the GNOME Shell reload step runs only
when install succeeded AND enable succeeded AND the unsafe-reload flag was
supplied. It is false: with install requested, unsafe-reload supplied,
install succeeding and enable FAILING, `buildCommand` still calls
`gnome.restartGnomeShell`, because the return value of
`gnome.enableExtension` is discarded (build.ts line 73). -/
theorem installTail_reload_despite_enable_failure :
    ¬ (∀ (i u io eo : Bool), (installTail i u io eo).reloadAttempted = true →
        (io = true ∧ eo = true ∧ u = true)) := by
  decide

/-- C2 amended: the install tail runs only when requested; enable runs
exactly when install succeeded; reload runs exactly when install succeeded
and the unsafe-reload flag was supplied (the enable result is not
consulted); the manual-restart instruction is printed exactly when install
succeeded and unsafe-reload was not supplied. -/
theorem installTail_gating (i u io eo : Bool) :
    ((installTail i u io eo).installAttempted = i)
    ∧ ((installTail i u io eo).enableAttempted = (i && io))
    ∧ ((installTail i u io eo).reloadAttempted = (i && io && u))
    ∧ ((installTail i u io eo).manualReloadMessage = (i && io && !u)) := by
  revert i u io eo
  decide

/-- C10 counterexample: the claim says that when the process cannot be
spawned, `exec` and `execCommand` return exit code 1, empty stdout, and
the failure message as stderr. It is false: under `reject: false` execa
resolves a spawn failure instead of rejecting, so the catch path is not
taken and both return `{stdout: "", stderr: "", exitCode: undefined}` —
the exit code is not 1 and the stderr is empty, not a failure message. -/
theorem exec_spawn_failure_counterexample :
    ShellExecutor.execResolved spawnFailureEvent = ⟨"", "", none⟩
    ∧ (ShellExecutor.execResolved spawnFailureEvent).exitCode ≠ some 1
    ∧ (ShellExecutor.execResolved spawnFailureEvent).stderr = ""
    ∧ ShellExecutor.execCommandResolved spawnFailureEvent = ⟨"", "", none⟩ := by
  exact ⟨rfl, by decide, rfl, rfl⟩

/-- C10 amended: `exec` and `execCommand` never throw — every invocation
returns a result record; a resolved invocation's fields are forwarded
unchanged, so a spawn failure (which execa resolves under
`reject: false`) yields exit code undefined with empty stdout and
stderr; the catch path returning exit code 1, empty stdout and the
failure message as stderr is taken exactly when the runner itself
throws, which a spawn failure does not trigger. -/
theorem exec_total_resolution (c : Option Nat) (out err m : String) :
    ShellExecutor.execResolved (ExecaEvent.resolved c out err) = ⟨out, err, c⟩
    ∧ ShellExecutor.execCommandResolved (ExecaEvent.resolved c out err) = ⟨out, err, c⟩
    ∧ ShellExecutor.execResolved spawnFailureEvent = ⟨"", "", none⟩
    ∧ ShellExecutor.execCommandResolved spawnFailureEvent = ⟨"", "", none⟩
    ∧ ShellExecutor.execResolved (ExecaEvent.threw m) = ⟨"", m, some 1⟩
    ∧ ShellExecutor.execCommandResolved (ExecaEvent.threw m) = ⟨"", m, some 1⟩ := by
  exact ⟨rfl, rfl, rfl, rfl, rfl, rfl⟩

/-- C7 counterexample: the claim says `execOrThrow` fails with an error
carrying the tool, its exit code, and its stderr. The thrown error is a
plain message built from the command, the arguments and stderr
(shell.ts lines 77–80); the exit code is not in it: no decoding function
can recover the exit code from the error, since exit codes 2 and 3 with
equal command, arguments and stderr throw the identical error. -/
theorem execOrThrow_error_drops_exitCode :
    ¬ (∃ decode : String → Nat,
        ∀ (cmd : String) (args : List String) (c : Nat) (out err : String), c ≠ 0 →
        ∀ m, ShellExecutor.execOrThrow cmd args (SpawnOutcome.completed c out err)
            = Except.error m → decode m = c) := by
  rintro ⟨decode, hd⟩
  have h2 : decode (ShellExecutor.failMessage "tool" [] "boom") = 2 :=
    hd "tool" [] 2 "" "boom" (by decide) _ rfl
  have h3 : decode (ShellExecutor.failMessage "tool" [] "boom") = 3 :=
    hd "tool" [] 3 "" "boom" (by decide) _ rfl
  rw [h2] at h3
  exact absurd h3 (by decide)

/-- C7 amended: `exec` returns the result record and never throws on a
non-zero tool exit; `execOrThrow` returns the tool's stdout when the exit
code is 0, and fails exactly when the exit code is non-zero — with an
error carrying the tool (command and arguments) and its stderr, but not
the exit code. -/
theorem execOrThrow_contract (cmd : String) (args : List String) (o : SpawnOutcome) :
    ((ShellExecutor.exec o).exitCode = 0 →
      ShellExecutor.execOrThrow cmd args o = Except.ok (ShellExecutor.exec o).stdout)
    ∧ ((ShellExecutor.exec o).exitCode ≠ 0 →
      ShellExecutor.execOrThrow cmd args o
        = Except.error (ShellExecutor.failMessage cmd args (ShellExecutor.exec o).stderr))
    ∧ (∀ (c : Nat) (out err : String),
        ShellExecutor.exec (SpawnOutcome.completed c out err) = ⟨out, err, c⟩) := by
  refine ⟨?_, ?_, fun c out err => rfl⟩
  · intro h
    simp [ShellExecutor.execOrThrow, h]
  · intro h
    simp [ShellExecutor.execOrThrow, h]

/-- C3 counterexample: the claim says the secondary invocation (`npx tsc`)
is attempted only when the primary executable (`bunx`) is unavailable, a
non-zero exit from the compiler itself being fatal. It is false: when
`bunx` runs and the compiler exits 2, the bare `catch {}` at build.ts
line 319 swallows the error and `npx` is attempted (and here even
succeeds, so the non-zero compiler exit was not fatal). -/
theorem runTscWithFallback_fallback_counterexample :
    ¬ (∀ (b n : SpawnOutcome), "npx" ∈ (runTscWithFallback b n).1 →
        ∃ m, b = SpawnOutcome.spawnError m) := by
  intro h
  obtain ⟨m, hm⟩ :=
    h (SpawnOutcome.completed 2 "" "type error") (SpawnOutcome.completed 0 "" "")
      (by decide)
  exact SpawnOutcome.noConfusion hm

/-- C3 amended: the `npx tsc` fallback is attempted exactly when the
`bunx tsc` invocation fails for any reason — missing executable or
non-zero compiler exit alike; the whole call succeeds exactly when either
invocation exits 0; and the fatal compiler-not-found error arises exactly
when both fail. -/
theorem runTscWithFallback_amended (b n : SpawnOutcome) :
    ("npx" ∈ (runTscWithFallback b n).1 ↔ (ShellExecutor.exec b).exitCode ≠ 0)
    ∧ ((runTscWithFallback b n).2 = Except.ok () ↔
        ((ShellExecutor.exec b).exitCode = 0 ∨ (ShellExecutor.exec n).exitCode = 0))
    ∧ ((ShellExecutor.exec b).exitCode ≠ 0 → (ShellExecutor.exec n).exitCode ≠ 0 →
        (runTscWithFallback b n).2
          = Except.error "Failed to run TypeScript compiler - tried bunx and npx") := by
  by_cases hb : (ShellExecutor.exec b).exitCode = 0
  · simp [runTscWithFallback, ShellExecutor.execOrThrow, hb]
  · by_cases hn : (ShellExecutor.exec n).exitCode = 0
    · simp [runTscWithFallback, ShellExecutor.execOrThrow, hb, hn]
    · simp [runTscWithFallback, ShellExecutor.execOrThrow, hb, hn]

/-- C1 counterexample: the claim says the injected copies are removed from
the compiled-output tree whether archiving succeeded or failed. It is
false for a failing archive invocation: the cleanup block (build.ts lines
297–306) runs after `execOrThrow("zip", ...)` with no try/finally, so when
the `zip` tool fails the call throws first and all three injected copies —
`src/metadata.json`, `src/LICENSE` and `src/u.gresource` here — are left
in the compiled-output tree. -/
theorem createZipPackage_cleanup_counterexample :
    ((createZipPackage "src" "u" "1" (some "build/u.gresource") false
        ["metadata.json", "LICENSE", "build/u.gresource"]).ok = false)
    ∧ fsHas (createZipPackage "src" "u" "1" (some "build/u.gresource") false
        ["metadata.json", "LICENSE", "build/u.gresource"]).fs "src/metadata.json" = true
    ∧ fsHas (createZipPackage "src" "u" "1" (some "build/u.gresource") false
        ["metadata.json", "LICENSE", "build/u.gresource"]).fs "src/LICENSE" = true
    ∧ fsHas (createZipPackage "src" "u" "1" (some "build/u.gresource") false
        ["metadata.json", "LICENSE", "build/u.gresource"]).fs "src/u.gresource" = true := by
  decide

/-- C1 amended: when the archive-tool invocation succeeds, the injected
metadata, license and (when a blob was produced) resource copies are all
removed from the compiled-output tree; when it fails, `createZipPackage`
throws and every copy injected before the failure remains in the
compiled-output tree — the metadata copy, the resource copy when one was
made, and the license copy when a license file was present. -/
theorem createZipPackage_cleanup_amended (jsDir uuid version : String)
    (rt : Option String) (fs : PathFS) :
    (fsHas (createZipPackage jsDir uuid version rt true fs).fs (metadataCopyPath jsDir) = false
      ∧ fsHas (createZipPackage jsDir uuid version rt true fs).fs (licenseCopyPath jsDir) = false
      ∧ (∀ r, rt = some r →
          fsHas (createZipPackage jsDir uuid version rt true fs).fs (gresourceCopyPath jsDir uuid) = false))
    ∧ ((createZipPackage jsDir uuid version rt false fs).ok = false
      ∧ fsHas (createZipPackage jsDir uuid version rt false fs).fs (metadataCopyPath jsDir) = true
      ∧ (∀ r, rt = some r →
          fsHas (createZipPackage jsDir uuid version rt false fs).fs (gresourceCopyPath jsDir uuid) = true)
      ∧ (fsHas fs "LICENSE" = true →
          fsHas (createZipPackage jsDir uuid version rt false fs).fs (licenseCopyPath jsDir) = true)) := by
  constructor
  · refine ⟨?_, ?_, ?_⟩
    · exact cleanupCopies_no_metadata _ _ _ _
    · exact cleanupCopies_no_license _ _ _ _
    · intro r hr
      subst hr
      exact cleanupCopies_no_gresource jsDir uuid r _
  · refine ⟨rfl, ?_, ?_, ?_⟩
    · exact injectCopies_has_metadata _ _ _ _
    · intro r hr
      subst hr
      exact injectCopies_has_gresource jsDir uuid r _
    · intro hl
      apply injectCopies_has_license
      by_cases hz : fsHas fs (zipPath uuid version)
      · simp only [hz, if_true]
        rw [fsHas_fsRemove_of_ne fs (zipPath uuid version) "LICENSE"
          (LICENSE_ne_zipPath uuid version)]
        exact hl
      · rw [Bool.not_eq_true] at hz
        simp only [hz, Bool.false_eq_true, if_false]
        exact hl

/-- C9: in every `createZipPackage` invocation, a pre-existing archive with
the target name is already gone from the filesystem at the moment the
archive tool is invoked (build.ts lines 270–273 precede line 293), and
when the archive tool fails no archive with the target name exists
afterwards — the stale one was deleted and the failed tool wrote nothing.
The hypotheses record that the three injected copy paths, which live in
the compiled-output tree, are not the archive path under `build/`. -/
theorem createZipPackage_removes_stale_before_zip (jsDir uuid version : String)
    (rt : Option String) (ok : Bool) (fs : PathFS)
    (hm : metadataCopyPath jsDir ≠ zipPath uuid version)
    (hl : licenseCopyPath jsDir ≠ zipPath uuid version)
    (hg : gresourceCopyPath jsDir uuid ≠ zipPath uuid version) :
    fsHas (createZipPackage jsDir uuid version rt ok fs).fsAtZipInvocation (zipPath uuid version) = false
    ∧ fsHas (createZipPackage jsDir uuid version rt false fs).fs (zipPath uuid version) = false := by
  have h1 : fsHas (if fsHas fs (zipPath uuid version) then fsRemove fs (zipPath uuid version) else fs)
      (zipPath uuid version) = false := by
    by_cases h : fsHas fs (zipPath uuid version)
    · simp only [h, if_true]
      exact fsHas_fsRemove_self _ _
    · rw [Bool.not_eq_true] at h
      simp only [h, Bool.false_eq_true, if_false]
  have h2 := injectCopies_preserves_absent jsDir uuid rt _ (zipPath uuid version) hm hl hg h1
  refine ⟨?_, h2⟩
  cases ok
  · exact h2
  · exact h2

/-- C9 witness: the theorem applied to a project with compiled output in
`src`, a stale archive on disk, and no resource blob. -/
theorem createZipPackage_removes_stale_before_zip_witness :
    fsHas (createZipPackage "src" "u" "1" none true [zipPath "u" "1"]).fsAtZipInvocation
      (zipPath "u" "1") = false
    ∧ fsHas (createZipPackage "src" "u" "1" none false [zipPath "u" "1"]).fs
      (zipPath "u" "1") = false :=
  createZipPackage_removes_stale_before_zip "src" "u" "1" none true [zipPath "u" "1"]
    (by decide) (by decide) (by decide)

/-- C4: each feature probe returns true iff its directory exists and
contains at least one relevant entry — an entry ending in `.po` for
translations, any entry of `data` for resources (every file under `data`
is shipped as a resource), any entry of the resolved schemas directory for
schemas — and an existing but empty directory yields false. -/
theorem feature_probes_iff (fs : NodeFS) :
    (ProjectUtils.hasTranslations fs = some true ↔
      ∃ es, lookupNode fs "po" = some (FsNode.dir es) ∧ ∃ f ∈ es, endsWithStr f ".po" = true)
    ∧ (ProjectUtils.hasResources fs = some true ↔
      ∃ es, lookupNode fs "data" = some (FsNode.dir es) ∧ es ≠ [])
    ∧ (ProjectUtils.hasSchemas fs = some true ↔
      ∃ es, lookupNode fs (ProjectUtils.getJsDir fs ++ "/schemas") = some (FsNode.dir es) ∧ es ≠ [])
    ∧ (lookupNode fs "po" = some (FsNode.dir []) → ProjectUtils.hasTranslations fs = some false)
    ∧ (lookupNode fs "data" = some (FsNode.dir []) → ProjectUtils.hasResources fs = some false)
    ∧ (lookupNode fs (ProjectUtils.getJsDir fs ++ "/schemas") = some (FsNode.dir [])
        → ProjectUtils.hasSchemas fs = some false) := by
  refine ⟨?_, ?_, ?_, ?_, ?_, ?_⟩
  · unfold ProjectUtils.hasTranslations fileExists readdir
    cases h : lookupNode fs "po" with
    | none => simp [h]
    | some node =>
      cases node with
      | file => simp [h]
      | dir es => simp [h, List.any_eq_true]
  · unfold ProjectUtils.hasResources fileExists readdir
    cases h : lookupNode fs "data" with
    | none => simp [h]
    | some node =>
      cases node with
      | file => simp [h]
      | dir es => simp [h, List.length_pos]
  · unfold ProjectUtils.hasSchemas fileExists readdir
    cases h : lookupNode fs (ProjectUtils.getJsDir fs ++ "/schemas") with
    | none => simp [h]
    | some node =>
      cases node with
      | file => simp [h]
      | dir es => simp [h, List.length_pos]
  · intro h
    unfold ProjectUtils.hasTranslations fileExists readdir
    simp [h]
  · intro h
    unfold ProjectUtils.hasResources fileExists readdir
    simp [h]
  · intro h
    unfold ProjectUtils.hasSchemas fileExists readdir
    simp [h]

/-- The schemas stage runs exactly when the `hasSchemas` flag, computed
from the initial filesystem, is true. -/
theorem schemas_mem_buildStages (fs : NodeFS) :
    Stage.schemas ∈ buildStages fs ↔ ProjectUtils.hasSchemas fs = some true := by
  unfold buildStages
  by_cases h1 : ProjectUtils.usesTypeScript fs <;>
    by_cases h2 : ProjectUtils.hasTranslations fs = some true <;>
      by_cases h3 : ProjectUtils.hasResources fs = some true <;>
        by_cases h4 : ProjectUtils.hasSchemas fs = some true <;>
          simp [h1, h2, h3, h4]

/-- C5: for a TypeScript project (tsconfig.json present), `hasSchemas`
probes the `schemas` subdirectory of the resolved output directory
(`dist/schemas`), not the raw source tree; the probe is evaluated on the
filesystem as it is before the compile stage deletes `dist` (build.ts
computes all flags at lines 24–30, before any stage runs); hence on a
build with no pre-existing `dist/schemas` the schemas stage never runs,
even when `src/schemas` exists and is non-empty. -/
theorem hasSchemas_probes_dist_fresh_build (fs : NodeFS) (es : List String)
    (htsc : lookupNode fs "tsconfig.json" = some FsNode.file)
    (hdist : lookupNode fs "dist/schemas" = none)
    (hsrc : lookupNode fs "src/schemas" = some (FsNode.dir es))
    (hne : es ≠ []) :
    ProjectUtils.getJsDir fs = "dist"
    ∧ ProjectUtils.hasSchemas fs = some false
    ∧ Stage.schemas ∉ buildStages fs := by
  have hjs : ProjectUtils.getJsDir fs = "dist" := by
    unfold ProjectUtils.getJsDir ProjectUtils.usesTypeScript fileExists
    simp [htsc]
  have hcat : ("dist" : String) ++ "/schemas" = "dist/schemas" := by decide
  have hs : ProjectUtils.hasSchemas fs = some false := by
    unfold ProjectUtils.hasSchemas fileExists readdir
    simp [hjs, hcat, hdist]
  refine ⟨hjs, hs, ?_⟩
  rw [schemas_mem_buildStages, hs]
  simp

/-- C5 witness: a TypeScript project whose source tree carries a non-empty
`src/schemas` but which has never been built (no `dist`). -/
theorem hasSchemas_probes_dist_fresh_build_witness :
    ProjectUtils.getJsDir ⟨[("tsconfig.json", FsNode.file),
        ("src/schemas", FsNode.dir ["a.gschema.xml"])]⟩ = "dist"
    ∧ ProjectUtils.hasSchemas ⟨[("tsconfig.json", FsNode.file),
        ("src/schemas", FsNode.dir ["a.gschema.xml"])]⟩ = some false
    ∧ Stage.schemas ∉ buildStages ⟨[("tsconfig.json", FsNode.file),
        ("src/schemas", FsNode.dir ["a.gschema.xml"])]⟩ :=
  hasSchemas_probes_dist_fresh_build
    ⟨[("tsconfig.json", FsNode.file), ("src/schemas", FsNode.dir ["a.gschema.xml"])]⟩
    ["a.gschema.xml"] (by decide) (by decide) (by decide) (by decide)

/-- C6: when `msgfmt` is unavailable the Translate stage returns without
error and compiles nothing (the build proceeds); when it is available and
the entries of `po` are some prefix `pre` whose `.po` files all compile,
then a `.po` file `f` whose compilation exits non-zero, then anything
else, the stage throws at `f` having compiled exactly the `.po` files of
`pre` — none of the remaining files is compiled. -/
theorem compileTranslations_skip_and_failfast (msgfmtOk : String → Bool)
    (pre post : List String) (f : String)
    (hpre : ∀ g ∈ pre, endsWithStr g ".po" = true → msgfmtOk g = true)
    (hf : endsWithStr f ".po" = true) (hok : msgfmtOk f = false) :
    compileTranslations false msgfmtOk (pre ++ f :: post) = ([], none)
    ∧ compileTranslations true msgfmtOk (pre ++ f :: post)
      = (pre.filter (fun g => endsWithStr g ".po"), some f) := by
  refine ⟨rfl, ?_⟩
  have key : ∀ pre : List String, (∀ g ∈ pre, endsWithStr g ".po" = true → msgfmtOk g = true) →
      compileTranslationsGo msgfmtOk (pre ++ f :: post)
        = (pre.filter (fun g => endsWithStr g ".po"), some f) := by
    intro pre
    induction pre with
    | nil =>
      intro _
      simp [compileTranslationsGo, hf, hok]
    | cons g rest ih =>
      intro hp
      have ihr := ih (fun x hx => hp x (List.mem_cons_of_mem g hx))
      by_cases hg : endsWithStr g ".po"
      · have hokg : msgfmtOk g = true := hp g (List.mem_cons_self g rest) hg
        simp [compileTranslationsGo, hg, hokg, ihr]
      · simp only [Bool.not_eq_true] at hg
        simp [compileTranslationsGo, hg, ihr]
  unfold compileTranslations
  simp only [Bool.not_true, Bool.false_eq_true, if_false]
  exact key pre hpre

/-- C6 witness: `po` holds a compiling `en.po`, a skipped `README`, a
failing `bad.po`, then `fr.po`; only `en.po` is compiled and the stage
fails at `bad.po`; with `msgfmt` missing, nothing runs and nothing fails. -/
theorem compileTranslations_skip_and_failfast_witness :
    compileTranslations false (fun g => g != "bad.po")
      (["en.po", "README"] ++ "bad.po" :: ["fr.po"]) = ([], none)
    ∧ compileTranslations true (fun g => g != "bad.po")
      (["en.po", "README"] ++ "bad.po" :: ["fr.po"])
      = (["en.po", "README"].filter (fun g => endsWithStr g ".po"), some "bad.po") :=
  compileTranslations_skip_and_failfast (fun g => g != "bad.po") ["en.po", "README"]
    ["fr.po"] "bad.po" (by decide) (by decide) (by decide)

/-! ## Helper lemmas about the compile-stage tree model -/

theorem stripDir_eq_none_of_not_underDir (d : String) (e : CPath × String)
    (h : underDir d e.1 = false) : stripDir d e = none := by
  rcases e with ⟨p, cnt⟩
  cases p with
  | nil => rfl
  | cons c rest =>
    simp only [underDir] at h
    simp [stripDir, h]

theorem filterMap_stripDir_filter_other (d d' : String) (hne : (d' == d) = false)
    (l : TreeFS) :
    (l.filter (fun e => !underDir d' e.1)).filterMap (stripDir d) = l.filterMap (stripDir d) := by
  induction l with
  | nil => rfl
  | cons e t ih =>
    by_cases hu : underDir d' e.1
    · have hnone : stripDir d e = none := by
        rcases e with ⟨p, cnt⟩
        cases p with
        | nil => rfl
        | cons c rest =>
          simp only [underDir] at hu
          have hc : c = d' := by
            exact eq_of_beq hu
          subst hc
          simp [stripDir, hne]
      simp [List.filter_cons, hu, List.filterMap_cons, hnone, ih]
    · simp only [Bool.not_eq_true] at hu
      simp [List.filter_cons, hu, List.filterMap_cons, ih]

theorem filterMap_stripDir_filter_self (d : String) (l : TreeFS) :
    (l.filter (fun e => !underDir d e.1)).filterMap (stripDir d) = [] := by
  rw [List.filterMap_eq_nil_iff]
  intro e he
  rw [List.mem_filter] at he
  apply stripDir_eq_none_of_not_underDir
  have := he.2
  simp only [Bool.not_eq_true'] at this
  exact this

theorem filterMap_stripDir_map_self (d : String) (l : TreeFS) :
    (l.map (fun e => (d :: e.1, e.2))).filterMap (stripDir d) = l := by
  induction l with
  | nil => rfl
  | cons e t ih =>
    have : stripDir d (d :: e.1, e.2) = some (e.1, e.2) := by
      simp [stripDir]
    simp [List.filterMap_cons, this, ih]

theorem filterMap_stripDir_map_other (d d' : String) (hne : (d' == d) = false)
    (l : TreeFS) :
    (l.map (fun e => (d' :: e.1, e.2))).filterMap (stripDir d) = [] := by
  induction l with
  | nil => rfl
  | cons e t ih =>
    have : stripDir d (d' :: e.1, e.2) = none := by
      simp [stripDir, hne]
    simp [List.filterMap_cons, this, ih]

theorem srcTree_compileTypeScript (c : TreeFS → TreeFS) (fs : TreeFS) :
    srcTree (compileTypeScript c fs) = srcTree fs := by
  unfold compileTypeScript srcTree
  have hsingle : List.filterMap (stripDir "src") [((["node_modules"] : CPath), "")] = [] := by
    decide
  by_cases hnm : (fs.filter (fun e => !underDir "dist" e.1)).any (fun e => underDir "node_modules" e.1)
  · simp only [hnm, if_true, List.filterMap_append,
      filterMap_stripDir_filter_other "src" "dist" (by decide) fs,
      filterMap_stripDir_map_other "src" "dist" (by decide) (distOutput c (fs.filterMap (stripDir "src"))),
      List.append_nil]
  · simp only [hnm, Bool.false_eq_true, if_false, List.filterMap_append, hsingle,
      filterMap_stripDir_filter_other "src" "dist" (by decide) fs,
      filterMap_stripDir_map_other "src" "dist" (by decide) (distOutput c (fs.filterMap (stripDir "src"))),
      List.append_nil]

theorem distTree_compileTypeScript (c : TreeFS → TreeFS) (fs : TreeFS) :
    distTree (compileTypeScript c fs) = distOutput c (srcTree fs) := by
  unfold compileTypeScript distTree srcTree
  have hsingle : List.filterMap (stripDir "dist") [((["node_modules"] : CPath), "")] = [] := by
    decide
  by_cases hnm : (fs.filter (fun e => !underDir "dist" e.1)).any (fun e => underDir "node_modules" e.1)
  · simp only [hnm, if_true, List.filterMap_append,
      filterMap_stripDir_filter_self "dist" fs,
      filterMap_stripDir_map_self "dist" (distOutput c (fs.filterMap (stripDir "src"))),
      List.nil_append]
  · simp only [hnm, Bool.false_eq_true, if_false, List.filterMap_append, hsingle,
      filterMap_stripDir_filter_self "dist" fs,
      filterMap_stripDir_map_self "dist" (distOutput c (fs.filterMap (stripDir "src"))),
      List.nil_append, List.append_nil]

/-- C8: running the compile stage twice in a row yields identical compiled
output — the stage removes any previous `dist` entirely before compiling,
so the produced `dist` tree is a function of the (unchanged) source tree
and the (deterministic, being a function) external compiler alone, and no
incremental state survives between the runs. -/
theorem compileTypeScript_idempotent (c : TreeFS → TreeFS) (fs : TreeFS) :
    distTree (compileTypeScript c (compileTypeScript c fs))
      = distTree (compileTypeScript c fs) := by
  rw [distTree_compileTypeScript, distTree_compileTypeScript, srcTree_compileTypeScript]
